import Mathlib

/-!
Verification development for the `iflag` Corus protocol client.

The Python sources are shallowly embedded: byte strings become `List Nat`
(each element a byte value), Python integers become `Nat`/`Int`, fallible
operations return `Option` or `Except IErr`.  Every definition mirrors the
corresponding function of the source (`iflag/utils.py`, `iflag/data.py`,
`iflag/parse.py`, `iflag/messages.py`, `iflag/client.py`); the file and
function are named in each doc comment.
-/

set_option maxRecDepth 40000

namespace IFlag

/-- Python exception outcomes raised by the embedded code.  Each constructor
stands for one concrete raise site / exception class:
`badSOH` = `ProtocolError("first char is not SOH")`,
`badETX` = `ProtocolError("end char not ETX")`,
`emptyResponse` = `ProtocolError("Empty response")`,
`outOfOrder` = `ProtocolError("Data frames not received in order")`,
`maxRetries` = `CommunicationError("Maximum amounts of retries done. Aborting.")`,
`outOfInput` = transport timeout (`CommunicationError`) when `recv` cannot
deliver the requested bytes,
`dateValueError` = `ValueError` raised by the `datetime.datetime` constructor,
`parseLengthValueError` = `ValueError("In data is not of correct length...")`
raised by `CorusDataParser.parse`,
`dataLengthValueError` = `ValueError` raised by `CorusData.check_in_data`,
`dataError` = `exceptions.DataError` raised by `CorusData.check_value_type`,
`overflowError` = `OverflowError` raised by `int.to_bytes` on an out-of-range
value,
`notImplementedError` = `NotImplementedError` raised by the `to_bytes` of the
database-only kinds. -/
inductive IErr where
  | badSOH
  | badETX
  | emptyResponse
  | outOfOrder
  | maxRetries
  | outOfInput
  | dateValueError
  | parseLengthValueError
  | dataLengthValueError
  | dataError
  | overflowError
  | notImplementedError
deriving DecidableEq, Repr

instance {ε α : Type} [DecidableEq ε] [DecidableEq α] : DecidableEq (Except ε α) :=
  fun x y =>
    match x, y with
    | .ok a, .ok b =>
        if h : a = b then isTrue (by rw [h])
        else isFalse (fun hh => h (Except.ok.inj hh))
    | .error a, .error b =>
        if h : a = b then isTrue (by rw [h])
        else isFalse (fun hh => h (Except.error.inj hh))
    | .ok _, .error _ => isFalse (fun hh => Except.noConfusion hh)
    | .error _, .ok _ => isFalse (fun hh => Except.noConfusion hh)

/-- Whether the Python exception class modelled by the constructor is
`exceptions.ProtocolError` (see `iflag/exceptions.py`). -/
def IErr.isProtocolError : IErr → Bool
  | .badSOH | .badETX | .emptyResponse | .outOfOrder => true
  | _ => false

/-- A Python `bytes` value: a list of byte values. -/
abbrev Bytes := List Nat

/-- Python `int.from_bytes(bs, "little")`. -/
def leNat : Bytes → Nat
  | [] => 0
  | b :: bs => b + 256 * leNat bs

/-- Python `int.from_bytes(bs, "big")`. -/
def beNat (bs : Bytes) : Nat :=
  bs.foldl (fun acc b => acc * 256 + b) 0

/-- The `n` little-endian bytes of `v` (the digits of `v` in base 256,
least significant first, padded/truncated to width `n`). -/
def leBytesOf : Nat → Nat → Bytes
  | _, 0 => []
  | v, n + 1 => v % 256 :: leBytesOf (v / 256) n

/-- Python `value.to_bytes(n, "little")`: raises `OverflowError` unless
`value < 256 ^ n` (values here are natural numbers, never negative). -/
def toBytesLE (value n : Nat) : Option Bytes :=
  if value < 256 ^ n then some (leBytesOf value n) else none

/-- Python `value.to_bytes(n, "big")`. -/
def toBytesBE (value n : Nat) : Option Bytes :=
  if value < 256 ^ n then some (leBytesOf value n).reverse else none

/-- One inner-loop round of `utils.crc16`: shift left, xor the polynomial
`0x8005` when bit 15 was set.  As in the Python source the register is an
unbounded integer; it is masked to 16 bits only at the very end. -/
def crcRound (crc : Nat) : Nat :=
  if crc &&& 0x8000 ≠ 0 then (crc <<< 1) ^^^ 0x8005 else crc <<< 1

/-- Per-byte update of `utils.crc16`: `crc ^= b << 8`, then eight rounds. -/
def crcByte (crc b : Nat) : Nat :=
  crcRound^[8] (crc ^^^ (b <<< 8))

/-- `utils.crc16(data)` with the default arguments: fold the per-byte update
over the data starting from 0, mask to 16 bits, and emit the two bytes
little-endian (`crc.to_bytes(2, "little")`, which cannot overflow after the
mask). -/
def crc16 (data : Bytes) : Bytes :=
  leBytesOf ((data.foldl crcByte 0) &&& 0xFFFF) 2

/-- `utils.add_crc(data)`. -/
def add_crc (data : Bytes) : Bytes :=
  data ++ crc16 data

/-- `utils.crc_valid(data, crc)`. -/
def crc_valid (data crc : Bytes) : Bool :=
  crc == crc16 data

/-- A Python `datetime.datetime` value (date and time fields only; the
source never uses timezones or microseconds). -/
structure PyDateTime where
  year : Nat
  month : Nat
  day : Nat
  hour : Nat
  minute : Nat
  second : Nat
deriving DecidableEq, Repr

/-- Gregorian leap-year rule used by Python's `datetime`. -/
def isLeapYear (y : Nat) : Bool :=
  y % 4 == 0 && (y % 100 != 0 || y % 400 == 0)

/-- Number of days of month `m` of year `y` (Python `calendar` rule used by
the `datetime.datetime` constructor to validate the day). -/
def daysInMonth (y m : Nat) : Nat :=
  if m == 2 then (if isLeapYear y then 29 else 28)
  else if m == 4 || m == 6 || m == 9 || m == 11 then 30
  else 31

/-- The validity requirements of the Python `datetime.datetime` constructor:
`MINYEAR ≤ year ≤ MAXYEAR`, `1 ≤ month ≤ 12`, `1 ≤ day ≤ days_in_month`,
`hour < 24`, `minute < 60`, `second < 60`. -/
def validDateTime (d : PyDateTime) : Prop :=
  1 ≤ d.year ∧ d.year ≤ 9999 ∧ 1 ≤ d.month ∧ d.month ≤ 12 ∧
  1 ≤ d.day ∧ d.day ≤ daysInMonth d.year d.month ∧
  d.hour < 24 ∧ d.minute < 60 ∧ d.second < 60

instance : DecidablePred validDateTime := fun d => by
  unfold validDateTime
  infer_instance

/-- The Python `datetime.datetime(...)` constructor: yields the value, or
raises `ValueError` when a field is out of range. -/
def mkDateTime (y mo d h mi s : Nat) : Except IErr PyDateTime :=
  let dt : PyDateTime := ⟨y, mo, d, h, mi, s⟩
  if validDateTime dt then .ok dt else .error .dateValueError

/-- `utils.date_to_byte(date)`.  `None` encodes as four zero bytes; otherwise
the fields are packed by shifts (`x << k` on Python ints is `x * 2 ^ k`, also
for negative `x`) and serialized with `total_value.to_bytes(4, "little")`,
which raises `OverflowError` when the packed value is negative (year before
2000) or does not fit 32 bits (year after 2063). -/
def date_to_byte : Option PyDateTime → Option Bytes
  | none => some [0, 0, 0, 0]
  | some d =>
      let total : Int :=
        (d.second : Int) + (d.minute : Int) * 2 ^ 6 + (d.hour : Int) * 2 ^ 12 +
          (d.day : Int) * 2 ^ 17 + (d.month : Int) * 2 ^ 22 +
          ((d.year : Int) - 2000) * 2 ^ 26
      if 0 ≤ total ∧ total < 2 ^ 32 then some (leBytesOf total.toNat 4) else none

/-- `utils.byte_to_date(in_bytes)`.  `None` input yields `None`; otherwise the
little-endian value is split by the source's bitmasks and the fields are fed
to the `datetime.datetime` constructor (which raises `ValueError` on
out-of-range fields, e.g. for the all-zero input). -/
def byte_to_date : Option Bytes → Except IErr (Option PyDateTime)
  | none => .ok none
  | some bs =>
      let v := leNat bs
      let dayV := (v &&& 0b00000000001111100000000000000000) >>> 17
      let monthV := (v &&& 0b00000011110000000000000000000000) >>> 22
      let yearV := ((v &&& 0b11111100000000000000000000000000) >>> 26) + 2000
      let hourV := (v &&& 0b00000000000000011111000000000000) >>> 12
      let minuteV := (v &&& 0b00000000000000000000111111000000) >>> 6
      let secondV := (v &&& 0b00000000000000000000000000111111) >>> 0
      (mkDateTime yearV monthV dayV hourV minuteV secondV).map some

/-- A decoded field value as stored by the data classes of `iflag/data.py`:
Python `int` for the `Integer` family, `decimal.Decimal` (exact, embedded as
`ℚ`) for the fixed-point kinds, `datetime.datetime` for `Date`, the raw
latin-1 bytes for `CorusString`, and Python `None` (`absent`) for the `Null`
kinds. -/
inductive Value where
  | int (n : Nat)
  | dec (q : ℚ)
  | dt (d : PyDateTime)
  | text (bs : Bytes)
  | absent
deriving DecidableEq, Repr

/-- The typed value kinds of `iflag/data.py` that appear in the parse
configurations and parameters (the IEEE-754 `Float` class is used only for
live parameters and is not needed by any claim, so it is not modelled). -/
inductive Kind where
  | byte
  | word
  | eword
  | ulong
  | eulong
  | float1
  | float2
  | float3
  | date
  | index
  | null2
  | null4
  | string8
deriving DecidableEq, Repr

/-- The `length` class attribute of each data class. -/
def Kind.length : Kind → Nat
  | .byte => 1
  | .word => 2
  | .eword => 3
  | .ulong => 4
  | .eulong => 5
  | .float1 => 2
  | .float2 => 2
  | .float3 => 2
  | .date => 4
  | .index => 8
  | .null2 => 2
  | .null4 => 4
  | .string8 => 8

/-- Whether the kind's data class is a subclass of `data.Integer`. -/
def Kind.isIntegerKind : Kind → Bool
  | .byte | .word | .eword | .ulong | .eulong => true
  | _ => false

/-- `data.Integer.from_bytes`: `check_in_data` (a `ValueError` on a slice of
the wrong width) and an unsigned little-endian read. -/
def intFromBytes (len : Nat) (bs : Bytes) : Except IErr Value :=
  if bs.length ≠ len then .error .dataLengthValueError
  else .ok (.int (leNat bs))

/-- `decimal.Decimal.quantize` rounding (the default `ROUND_HALF_EVEN`) of
the exact quotient `n / d`, for natural `n` and positive `d`. -/
def roundHalfEvenDiv (n d : Nat) : Nat :=
  let q := n / d
  let r := n % d
  if 2 * r < d then q
  else if 2 * r > d then q + 1
  else if q % 2 = 0 then q else q + 1

/-- The exact rational value of the decimal literal `num * 10 ^ e`
(Python `Decimal(f"{num}e{e}")`), built with `mkRat` so that concrete values
reduce. -/
def decimalE (num : Nat) (e : Int) : ℚ :=
  if 0 ≤ e then mkRat (num * 10 ^ e.toNat) 1 else mkRat num (10 ^ (-e).toNat)

/-- The decimal value produced by `data.Index.from_bytes`:
`(num + dec / 100000000).quantize(Decimal("0.001"))`, computed exactly
(`x.quantize(0.001)` is round-half-even of `x * 1000`, divided by 1000). -/
def indexValue (numPart decPart : Nat) : ℚ :=
  mkRat (roundHalfEvenDiv (numPart * 100000000 + decPart) 100000) 1000

/-- The `from_bytes` classmethod of each data class of `iflag/data.py`. -/
def Kind.from_bytes : Kind → Bytes → Except IErr Value
  | .byte, bs => intFromBytes 1 bs
  | .word, bs => intFromBytes 2 bs
  | .eword, bs => intFromBytes 3 bs
  | .ulong, bs => intFromBytes 4 bs
  | .eulong, bs => intFromBytes 5 bs
  | .float1, bs =>
      if bs.length ≠ 2 then .error .dataLengthValueError
      else
        let v := leNat bs
        let sv : Int := if v < 32768 then (v : Int) else (v : Int) - 65536
        .ok (.dec (mkRat sv 100))
  | .float2, bs =>
      if bs.length ≠ 2 then .error .dataLengthValueError
      else
        let v := leNat bs
        let num := v &&& 0b0111111111111111
        let e : Int := ((v &&& 0b1000000000000000) >>> 15 : Nat) - 3
        .ok (.dec (decimalE num e))
  | .float3, bs =>
      if bs.length ≠ 2 then .error .dataLengthValueError
      else
        let v := leNat bs
        let num := v &&& 0b0011111111111111
        let e : Int := ((v &&& 0b1100000000000000) >>> 14 : Nat) - 2
        .ok (.dec (decimalE num e))
  | .date, bs =>
      if bs.length ≠ 4 then .error .dataLengthValueError
      else
        match byte_to_date (some bs) with
        | .error e => .error e
        | .ok (some d) => .ok (.dt d)
        | .ok none => .error .dataError
  | .index, bs =>
      if bs.length ≠ 8 then .error .dataLengthValueError
      else .ok (.dec (indexValue (leNat (bs.take 4)) (leNat (bs.drop 4))))
  | .null2, _ => .ok .absent
  | .null4, _ => .ok .absent
  | .string8, bs =>
      if bs.length ≠ 8 then .error .dataLengthValueError
      else .ok (.text bs)

/-- `data.Integer.__init__` plus `to_bytes`. -/
def intToBytes (len : Nat) : Value → Except IErr Bytes
  | .int n => if n < 256 ^ len then .ok (leBytesOf n len) else .error .overflowError
  | _ => .error .dataError

/-- Constructing a data-class instance from a value and serializing it with
`to_bytes` (`iflag/data.py`): `check_value_type` raises `DataError` on a
value of the wrong Python type (in particular on `None`), `int.to_bytes`
raises `OverflowError` on an out-of-range integer, the `Null` classes ignore
the value and emit fixed zero bytes, and the database-only kinds raise
`NotImplementedError`. -/
def Kind.to_bytes : Kind → Value → Except IErr Bytes
  | .byte, v => intToBytes 1 v
  | .word, v => intToBytes 2 v
  | .eword, v => intToBytes 3 v
  | .ulong, v => intToBytes 4 v
  | .eulong, v => intToBytes 5 v
  | .float1, _ => .error .notImplementedError
  | .float2, _ => .error .notImplementedError
  | .float3, _ => .error .notImplementedError
  | .date, .dt d =>
      match date_to_byte (some d) with
      | some bs => .ok bs
      | none => .error .overflowError
  | .date, _ => .error .dataError
  | .index, _ => .error .notImplementedError
  | .null2, _ => .ok [0, 0]
  | .null4, _ => .ok [0, 0, 0, 0]
  | .string8, .text bs => .ok bs
  | .string8, _ => .error .dataError

/-- `parse.ParseConfigItem`: a field name and its data class. -/
structure ParseConfigItem where
  name : String
  kind : Kind
deriving DecidableEq, Repr

/-- `parse.MONTHLY_DATABASE_PARSE_CONFIG` (note `counter_unconverted` and
`counter_converted` each appear twice, once with an integer kind and once as
`Index`). -/
def MONTHLY_DATABASE_PARSE_CONFIG : List ParseConfigItem :=
  [⟨"record_duration", .word⟩,
   ⟨"status", .byte⟩,
   ⟨"end_date", .date⟩,
   ⟨"consumption_unconverted", .eword⟩,
   ⟨"consumption_converted", .eulong⟩,
   ⟨"counter_unconverted", .eword⟩,
   ⟨"counter_converted", .eulong⟩,
   ⟨"temperature_minimum", .float1⟩,
   ⟨"temperature_maximum", .float1⟩,
   ⟨"temperature_average", .float1⟩,
   ⟨"pressure_minimum", .float2⟩,
   ⟨"pressure_maximum", .float2⟩,
   ⟨"pressure_average", .float2⟩,
   ⟨"flowrate_unconverted_minimum", .float3⟩,
   ⟨"flowrate_unconverted_maximum", .float3⟩,
   ⟨"flowrate_converted_minimum", .float3⟩,
   ⟨"flowrate_converted_maximum", .float3⟩,
   ⟨"none_data_1", .null4⟩,
   ⟨"index_unconverted", .index⟩,
   ⟨"index_converted", .index⟩,
   ⟨"counter_unconverted", .index⟩,
   ⟨"counter_converted", .index⟩,
   ⟨"consumption_unconverted_interval_maximum", .word⟩,
   ⟨"consumption_unconverted_interval_maximum_date", .date⟩,
   ⟨"consumption_converted_interval_maximum", .ulong⟩,
   ⟨"consumption_converted_interval_maximum_date", .date⟩,
   ⟨"flowrate_unconverted_average", .float3⟩,
   ⟨"flowrate_converted_average", .float3⟩,
   ⟨"start_date", .date⟩,
   ⟨"none_data_2", .null2⟩]

/-- Python dict assignment `out_data[name] = v`: replace the value of an
existing key in place, otherwise append the new pair. -/
def dictInsert (m : List (String × Value)) (k : String) (v : Value) :
    List (String × Value) :=
  match m with
  | [] => [(k, v)]
  | (k0, v0) :: rest =>
      if k0 = k then (k0, v) :: rest else (k0, v0) :: dictInsert rest k v

/-- `CorusDataParser.parse_length`: the sum of the config's class widths. -/
def parseLength (cfg : List ParseConfigItem) : Nat :=
  (cfg.map (fun c => c.kind.length)).sum

/-- The descriptor walk inside `CorusDataParser.parse`: slice the next
`length` bytes, decode them, store the value under the item's name. -/
def parseItems : List ParseConfigItem → Bytes → List (String × Value) →
    Except IErr (List (String × Value))
  | [], _, acc => .ok acc
  | item :: rest, inData, acc =>
      match item.kind.from_bytes (inData.take item.kind.length) with
      | .error e => .error e
      | .ok v => parseItems rest (inData.drop item.kind.length)
          (dictInsert acc item.name v)

/-- `CorusDataParser.parse`: a `ValueError` unless the payload length equals
`parse_length`, then the descriptor walk. -/
def corusParse (cfg : List ParseConfigItem) (inData : Bytes) :
    Except IErr (List (String × Value)) :=
  if inData.length ≠ parseLength cfg then .error .parseLengthValueError
  else parseItems cfg inData []

/-- The id-encoding step of `messages.ReadRequest.to_bytes`: one big-endian
byte for an id below 239, otherwise the two big-endian bytes of
`id | 0xF000`. -/
def encodeParameterId (id : Nat) : Option Bytes :=
  if id < 239 then toBytesBE id 1
  else toBytesBE (id ||| 0xF000) 2

/-- The id-bytes accumulation loop of `messages.ReadRequest.to_bytes`. -/
def encodeParameterIds : List Nat → Option Bytes
  | [] => some []
  | id :: rest => do
      let b ← encodeParameterId id
      let bs ← encodeParameterIds rest
      pure (b ++ bs)

/-- `messages.ReadRequest.to_bytes`: `SOH 0xBF`, the one-byte big-endian size
of the id bytes, the id bytes, `ETX`, and the little-endian CRC-16 appended
by `utils.add_crc`. -/
def readRequest_to_bytes (ids : List Nat) : Option Bytes := do
  let idBytes ← encodeParameterIds ids
  let size ← toBytesBE idBytes.length 1
  pure (add_crc ([0x01, 0xBF] ++ size ++ idBytes ++ [0x03]))

/-- `messages.WriteData.to_bytes`.  Note: the source appends `self.data` only
in the `id < 239` branch; the two-byte branch returns just the encoded id. -/
def writeData_to_bytes (id : Nat) (data : Bytes) : Option Bytes :=
  if id < 239 then (toBytesBE id 1).map (· ++ data)
  else toBytesBE (id ||| 0b1111000000000000) 2

/-- The `b"".join(...)` of the items in `messages.WriteRequest.to_bytes`. -/
def writeItemsBytes : List (Nat × Bytes) → Option Bytes
  | [] => some []
  | (id, d) :: rest => do
      let b ← writeData_to_bytes id d
      let bs ← writeItemsBytes rest
      pure (b ++ bs)

/-- `messages.WriteRequest.to_bytes`: `SOH 0xFF`, the one-byte little-endian
size of the item bytes, the item bytes, `ETX`, and the CRC-16 tail. -/
def writeRequest_to_bytes (items : List (Nat × Bytes)) : Option Bytes := do
  let dataBytes ← writeItemsBytes items
  let size ← toBytesLE dataBytes.length 1
  pure (add_crc ([0x01, 0xFF] ++ size ++ dataBytes ++ [0x03]))

/-- Python `transport.recv(n)` on a finite byte stream: the first `n` bytes
and the remainder, or a timeout (`none`) when fewer bytes are available. -/
def recvN (n : Nat) (s : Bytes) : Option (Bytes × Bytes) :=
  if n ≤ s.length then some (s.take n, s.drop n) else none

/-- The loop state of `CorusClient._read_database_data`: `_data`,
`record_size`, `is_first_frame`, `retry_count`, `previous_frame_number`. -/
structure DbState where
  data : Bytes
  recordSize : Nat
  isFirst : Bool
  retry : Nat
  prev : Nat
deriving Repr

/-- The `while read_next` loop of `CorusClient._read_database_data`, reading
from a finite byte stream.  `fuel` only bounds the recursion: every iteration
consumes at least five stream bytes, so the top-level call with
`stream.length + 1` fuel can never hit zero.  Mirroring the source, the
record-size extraction, the empty-response check, the data append and the
frame-order check all happen before the CRC bytes are read and validated;
on CRC failure the loop retries with the data already appended and
`is_first_frame` unchanged. -/
def readDbLoop : Nat → Bytes → DbState → Except IErr (Bytes × Nat)
  | 0, _, _ => .error .outOfInput
  | fuel + 1, s, st =>
    match recvN 1 s with
    | none => .error .outOfInput
    | some (firstChar, s1) =>
      if firstChar ≠ [0x01] then .error .badSOH else
      match recvN 1 s1 with
      | none => .error .outOfInput
      | some (lengthB, s2) =>
        match recvN (beNat lengthB) s2 with
        | none => .error .outOfInput
        | some (frameData, s3) =>
          let currentFrameNumber := leNat (frameData.take 2) &&& 0b0111111111111111
          match recvN 1 s3 with
          | none => .error .outOfInput
          | some (endChar, s4) =>
            if endChar ≠ [0x03] then .error .badETX else
            let inBytes := firstChar ++ lengthB ++ frameData ++ endChar
            let step : Except IErr (Bytes × Nat) :=
              if st.isFirst then
                let recordSize := beNat ((frameData.drop 2).take 1)
                if recordSize = 0 then .error .emptyResponse
                else .ok (st.data ++ frameData.drop 3, recordSize)
              else
                if currentFrameNumber ≠ st.prev + 1 then .error .outOfOrder
                else .ok (st.data ++ frameData.drop 2, st.recordSize)
            match step with
            | .error e => .error e
            | .ok (data1, recordSize1) =>
              match recvN 2 s4 with
              | none => .error .outOfInput
              | some (crc, s5) =>
                if ¬ crc_valid inBytes crc then
                  if st.retry ≥ 3 then .error .maxRetries
                  else readDbLoop fuel s5
                    { st with data := data1, recordSize := recordSize1,
                              retry := st.retry + 1 }
                else
                  if leNat (frameData.take 2) &&& 0b1000000000000000 ≠ 0 then
                    .ok (data1, recordSize1)
                  else readDbLoop fuel s5
                    { data := data1, recordSize := recordSize1,
                      isFirst := false, retry := 0,
                      prev := currentFrameNumber }

/-- Structural worker for `splitRecords`: the fuel only bounds the recursion
(every slice removes at least one byte when the record size is positive, so
`dat.length` fuel always suffices). -/
def splitRecordsAux : Nat → Bytes → Nat → List Bytes
  | 0, _, _ => []
  | fuel + 1, dat, recordSize =>
      if recordSize = 0 ∨ dat = [] then []
      else dat.take recordSize :: splitRecordsAux fuel (dat.drop recordSize) recordSize

/-- The record-splitting comprehension at the end of
`_read_database_data`:
`[_data[i:i + record_size] for i in range(0, len(_data), record_size)]`.
A zero `record_size` cannot reach this point (the loop raises
"Empty response" on record size 0; Python `range` would raise on step 0). -/
def splitRecords (dat : Bytes) (recordSize : Nat) : List Bytes :=
  splitRecordsAux dat.length dat recordSize

/-- `CorusClient._read_database_data` end to end on a finite byte stream:
run the frame loop from the initial state, then split the accumulated bytes
into `record_size`-wide slices. -/
def readDatabaseData (s : Bytes) : Except IErr (List Bytes) :=
  match readDbLoop (s.length + 1) s ⟨[], 0, true, 0, 0⟩ with
  | .error e => .error e
  | .ok (dat, recordSize) => .ok (splitRecords dat recordSize)

/-- Verification fixture: the two little-endian bytes of a 16-bit value
(the frame-number header as it appears on the wire). -/
def le2 (v : Nat) : Bytes :=
  [v % 256, v / 256 % 256]

/-- Verification fixture: a correctly framed wire frame around a payload
(SOH, one length byte, payload, ETX, valid CRC-16). -/
def wireFrame (payload : Bytes) : Bytes :=
  add_crc ([0x01, payload.length] ++ payload ++ [0x03])

/-- Verification fixture: a synthesized database frame of the kind the claims
quantify over: a frame number, the terminal bit, and its record data. -/
structure DbFrame where
  num : Nat
  last : Bool
  body : Bytes
deriving DecidableEq, Repr

/-- The 16-bit frame header: the number with the terminal bit (bit 15). -/
def frameHeader (f : DbFrame) : Nat :=
  f.num + (if f.last then 32768 else 0)

/-- The wire bytes of a non-first synthesized frame: header then data. -/
def encodeMidFrame (f : DbFrame) : Bytes :=
  wireFrame (le2 (frameHeader f) ++ f.body)

/-- The wire bytes of the first synthesized frame: header, the record-size
byte, then data. -/
def encodeFirstFrame (rs : Nat) (f : DbFrame) : Bytes :=
  wireFrame (le2 (frameHeader f) ++ [rs] ++ f.body)

/-- A whole synthesized stream: the first frame carries the record size, the
remaining frames are plain. -/
def encodeStream (rs : Nat) : List DbFrame → Bytes
  | [] => []
  | f :: fs => encodeFirstFrame rs f ++ (fs.map encodeMidFrame).flatten

/-- Frames numbered consecutively from `k` over the given record datas, with
the terminal bit set exactly on the final frame. -/
def mkFrames (k : Nat) : List Bytes → List DbFrame
  | [] => []
  | [d] => [⟨k, true, d⟩]
  | d :: d2 :: ds => ⟨k, false, d⟩ :: mkFrames (k + 1) (d2 :: ds)

/-- Exchange the elements at positions `i` and `j` of a list (identity when
either index is out of range). -/
def swapList (l : List DbFrame) (i j : Nat) : List DbFrame :=
  match l[i]?, l[j]? with
  | some a, some b => (l.set i b).set j a
  | _, _ => l

/-- Spec-side restatement of the claim's id-encoding rule for `ReadRequest`:
"each id < 239 as one big-endian byte; each id >= 239 as two big-endian bytes
of id | 0xF000".  To be compared with `encodeParameterIds`. -/
def specIdBytes (ids : List Nat) : Bytes :=
  (ids.map fun id =>
    if id < 239 then [id]
    else [(id ||| 0xF000) / 256, (id ||| 0xF000) % 256]).flatten

/-- Spec-side restatement of the claimed `ReadRequest` body:
`0x01, 0xBF, one-byte size = byte length of the encoded ids, encoded ids,
0x03` (the CRC-16 tail is appended over these bytes). -/
def specReadRequestBody (ids : List Nat) : Bytes :=
  [0x01, 0xBF, (specIdBytes ids).length] ++ specIdBytes ids ++ [0x03]

/-- Verification fixture for the duplicate-name claim: a 103-byte monthly
record whose four date fields hold 2000-01-01 00:00:00 and whose first
`counter_unconverted` slice (the `EWord` at offset 15) holds 1, all other
bytes zero. -/
def monthlyInput : Bytes :=
  List.replicate 3 0 ++ [0x00, 0x00, 0x42, 0x00] ++ List.replicate 8 0 ++
    [0x01, 0x00, 0x00] ++ List.replicate 63 0 ++ [0x00, 0x00, 0x42, 0x00] ++
    List.replicate 4 0 ++ [0x00, 0x00, 0x42, 0x00] ++ List.replicate 4 0 ++
    [0x00, 0x00, 0x42, 0x00] ++ List.replicate 2 0

/-! ## Supporting lemmas -/

theorem leNat_leBytesOf (n : Nat) : ∀ v, leNat (leBytesOf v n) = v % 256 ^ n := by
  induction n with
  | zero => intro v; simp [leBytesOf, leNat, Nat.mod_one]
  | succ k ih =>
      intro v
      simp only [leBytesOf, leNat, ih]
      rw [pow_succ, Nat.mul_comm (256 ^ k) 256, Nat.mod_mul]

theorem beNat_single (x : Nat) : beNat [x] = x := by
  simp [beNat]

theorem leNat_le2 (v : Nat) (h : v < 65536) : leNat (le2 v) = v := by
  simp only [le2, leNat]
  omega

theorem daysInMonth_le (y m : Nat) : daysInMonth y m ≤ 31 := by
  unfold daysInMonth
  split
  · split <;> omega
  · split <;> omega

theorem shiftRight_and_distrib (x y n : Nat) :
    (x &&& y) >>> n = x >>> n &&& y >>> n := by
  apply Nat.eq_of_testBit_eq
  intro i
  simp [Nat.testBit_shiftRight, Nat.testBit_and]

theorem maskShift (v k w : Nat) :
    (v &&& ((2 ^ w - 1) * 2 ^ k)) >>> k = v / 2 ^ k % 2 ^ w := by
  have h1 : (2 ^ w - 1) * 2 ^ k = (2 ^ w - 1) <<< k := (Nat.shiftLeft_eq _ _).symm
  rw [h1, shiftRight_and_distrib, Nat.shiftLeft_eq, Nat.shiftRight_eq_div_pow,
    Nat.shiftRight_eq_div_pow, Nat.mul_div_cancel _ (Nat.pos_pow_of_pos k (by norm_num)),
    Nat.and_pow_two_sub_one_eq_mod]

theorem crc16_length (data : Bytes) : (crc16 data).length = 2 := by
  simp [crc16, leBytesOf]

theorem recvN_cons (a : Nat) (l : Bytes) : recvN 1 (a :: l) = some ([a], l) := by
  simp [recvN]

theorem recvN_exact (l1 l2 : Bytes) : recvN l1.length (l1 ++ l2) = some (l1, l2) := by
  unfold recvN
  rw [if_pos (by simp)]
  rw [List.take_left, List.drop_left]

/-! ## Claim theorems: typed codec and parser -/

/-- C6 counterexample: decoding the four-byte all-zero input does not yield
the absent value; the `datetime` constructor rejects month 0 / day 0 with a
`ValueError`. -/
theorem c6_counterexample :
    byte_to_date (some [0x00, 0x00, 0x00, 0x00]) ≠ Except.ok none := by
  decide

/-- C6 (amended): encoding the absent date yields four zero bytes and a
`None` input decodes to the absent value, but decoding the four zero bytes
raises `ValueError` (month 0, day 0) instead of yielding the absent value. -/
theorem c6_absent_date :
    date_to_byte none = some [0x00, 0x00, 0x00, 0x00] ∧
    byte_to_date (some [0x00, 0x00, 0x00, 0x00]) =
      Except.error IErr.dateValueError ∧
    byte_to_date none = Except.ok none := by
  refine ⟨rfl, by decide, rfl⟩

/-- C1 counterexample: for the `Byte` kind, an all-ones field decodes to the
integer 255, not to the absent value, and encoding the absent value raises
`DataError` rather than producing `0xFF`. -/
theorem c1_counterexample :
    Kind.from_bytes Kind.byte [0xFF] = Except.ok (Value.int 255) ∧
    Value.int 255 ≠ Value.absent ∧
    Kind.to_bytes Kind.byte Value.absent = Except.error IErr.dataError := by
  decide

/-- C1 (amended): the data classes have no all-ones sentinel.  Every integer
kind decodes `0xFF × width` to the plain integer `2 ^ (8·width) - 1` and
raises `DataError` when asked to encode the absent value; the `Null` kinds
decode any input (all-ones included) to the absent value but encode it as
zero bytes, not as `0xFF`; the `Date` kind raises `ValueError` on all-ones
input. -/
theorem c1_no_all_ones_sentinel :
    (∀ k : Kind, k.isIntegerKind = true →
      k.from_bytes (List.replicate k.length 0xFF) =
        Except.ok (Value.int (2 ^ (8 * k.length) - 1)) ∧
      k.to_bytes Value.absent = Except.error IErr.dataError) ∧
    Kind.from_bytes Kind.null2 (List.replicate 2 0xFF) = Except.ok Value.absent ∧
    Kind.to_bytes Kind.null2 Value.absent = Except.ok [0x00, 0x00] ∧
    Kind.from_bytes Kind.null4 (List.replicate 4 0xFF) = Except.ok Value.absent ∧
    Kind.to_bytes Kind.null4 Value.absent = Except.ok [0x00, 0x00, 0x00, 0x00] ∧
    Kind.from_bytes Kind.date (List.replicate 4 0xFF) =
      Except.error IErr.dateValueError := by
  refine ⟨?_, by decide, by decide, by decide, by decide, by decide⟩
  intro k hk
  cases k <;> revert hk <;> decide

/-- C1 witness: the amended statement instantiated at the `Word` kind. -/
theorem c1_no_all_ones_sentinel_witness :
    Kind.from_bytes Kind.word (List.replicate Kind.word.length 0xFF) =
      Except.ok (Value.int (2 ^ (8 * Kind.word.length) - 1)) :=
  (c1_no_all_ones_sentinel.1 Kind.word rfl).1

/-- C2: `WriteData.to_bytes` drops the value bytes for a two-byte id.  For
id 238 the item is the id byte followed by the value bytes, and the framed
`WriteRequest` is `SOH 0xFF size items ETX crc` as claimed; but for id 239
the result is only the two id bytes `F0 EF`, without the value bytes. -/
theorem c2_write_data_drops_value :
    writeData_to_bytes 238 [0x07] = some [0xEE, 0x07] ∧
    writeData_to_bytes 239 [0x07] = some [0xF0, 0xEF] ∧
    writeData_to_bytes 239 [0x07] ≠ some ([0xF0, 0xEF] ++ [0x07]) ∧
    writeRequest_to_bytes [(238, [0x07])] =
      some [0x01, 0xFF, 0x02, 0xEE, 0x07, 0x03, 0x79, 0xE7] ∧
    crc_valid [0x01, 0xFF, 0x02, 0xEE, 0x07, 0x03] [0x79, 0xE7] = true := by
  decide

/-- C8 counterexample: on a payload whose length differs from the summed
widths the parser raises `ValueError`, which is not a `ProtocolError`. -/
theorem c8_counterexample :
    corusParse [⟨"record_duration", Kind.byte⟩] [] =
      Except.error IErr.parseLengthValueError ∧
    IErr.isProtocolError IErr.parseLengthValueError = false := by
  decide

/-- C8 (amended): for every config and payload the parser raises
`ValueError` (not `ProtocolError`) exactly when the payload length differs
from the sum of the configured widths, and a successful parse implies the
lengths agree. -/
theorem c8_parse_length_check (cfg : List ParseConfigItem) (bs : Bytes) :
    (bs.length ≠ parseLength cfg →
      corusParse cfg bs = Except.error IErr.parseLengthValueError) ∧
    (∀ m, corusParse cfg bs = Except.ok m → bs.length = parseLength cfg) := by
  constructor
  · intro h
    simp [corusParse, h]
  · intro m hm
    by_contra hne
    simp [corusParse, hne] at hm

/-- C8 witness: the amended statement applied to a one-byte config and an
empty payload. -/
theorem c8_parse_length_check_witness :
    corusParse [⟨"record_duration", Kind.byte⟩] [] =
      Except.error IErr.parseLengthValueError :=
  (c8_parse_length_check [⟨"record_duration", Kind.byte⟩] []).1 (by decide)

/-- C10: the monthly parse config lists `counter_unconverted` (as `EWord` and
as `Index`) and `counter_converted` (as `EULong` and as `Index`) twice; the
parser raises no error and the later `Index` value silently overwrites the
earlier integer, so the result has 28 keys for 30 descriptors. -/
theorem c10_duplicate_names :
    ∃ m, corusParse MONTHLY_DATABASE_PARSE_CONFIG monthlyInput = Except.ok m ∧
      MONTHLY_DATABASE_PARSE_CONFIG.length = 30 ∧
      m.length = 28 ∧
      m.length < MONTHLY_DATABASE_PARSE_CONFIG.length ∧
      Kind.from_bytes Kind.eword ((monthlyInput.drop 15).take 3) =
        Except.ok (Value.int 1) ∧
      Kind.from_bytes Kind.index ((monthlyInput.drop 63).take 8) =
        Except.ok (Value.dec 0) ∧
      m.lookup "counter_unconverted" = some (Value.dec 0) ∧
      m.lookup "counter_converted" = some (Value.dec 0) ∧
      Value.dec 0 ≠ Value.int 1 := by
  refine ⟨_, rfl, by decide, by decide, by decide, by decide, by decide,
    by decide, by decide, by decide⟩

/-! ## Claim theorems: message builders -/

theorem encodeParameterIds_eq (ids : List Nat) (h : ∀ id ∈ ids, id < 65536) :
    encodeParameterIds ids = some (specIdBytes ids) := by
  induction ids with
  | nil => rfl
  | cons id rest ih =>
      have hid : id < 65536 := h id (List.mem_cons_self id rest)
      have hrest : ∀ i ∈ rest, i < 65536 := fun i hi => h i (List.mem_cons_of_mem id hi)
      simp only [encodeParameterIds, ih hrest, specIdBytes, List.map_cons,
        List.flatten_cons, Option.bind_eq_bind]
      by_cases hlt : id < 239
      · have : encodeParameterId id = some [id] := by
          simp only [encodeParameterId, if_pos hlt, toBytesBE]
          rw [if_pos (by omega)]
          simp [leBytesOf]
          omega
        simp [this, specIdBytes, hlt]
      · have hor : id ||| 0xF000 < 65536 :=
          Nat.or_lt_two_pow (n := 16) hid (by norm_num)
        have : encodeParameterId id =
            some [(id ||| 0xF000) / 256, (id ||| 0xF000) % 256] := by
          simp only [encodeParameterId, if_neg hlt, toBytesBE]
          rw [if_pos (by omega)]
          simp [leBytesOf]
          omega
        simp [this, hlt, specIdBytes]

/-- C9: for every list of representable ids whose encoding fits the one-byte
size field, `ReadRequest.to_bytes` produces exactly the claimed layout
`SOH 0xBF size id-bytes ETX` followed by the little-endian CRC-16 of the
preceding bytes, the CRC tail validates, and for the single id 148 the
output is `01 BF 01 94 03 5A 74`. -/
theorem c9_read_request (ids : List Nat) (h1 : ∀ id ∈ ids, id < 65536)
    (h2 : (specIdBytes ids).length ≤ 255) :
    readRequest_to_bytes ids =
      some (specReadRequestBody ids ++ crc16 (specReadRequestBody ids)) ∧
    crc_valid (specReadRequestBody ids) (crc16 (specReadRequestBody ids)) = true ∧
    readRequest_to_bytes [148] =
      some [0x01, 0xBF, 0x01, 0x94, 0x03, 0x5A, 0x74] ∧
    crc_valid [0x01, 0xBF, 0x01, 0x94, 0x03] [0x5A, 0x74] = true := by
  refine ⟨?_, by simp [crc_valid], by decide, by decide⟩
  simp only [readRequest_to_bytes, encodeParameterIds_eq ids h1, Option.bind_eq_bind,
    Option.some_bind, toBytesBE]
  rw [if_pos (by omega)]
  simp only [Option.some_bind, leBytesOf, add_crc, specReadRequestBody]
  have : (specIdBytes ids).length % 256 = (specIdBytes ids).length :=
    Nat.mod_eq_of_lt (by omega)
  simp [this, Nat.div_eq_of_lt (show (specIdBytes ids).length < 256 by omega)]

/-- C9 witness: the theorem instantiated at the single id 148. -/
theorem c9_read_request_witness :
    readRequest_to_bytes [148] =
      some (specReadRequestBody [148] ++ crc16 (specReadRequestBody [148])) :=
  (c9_read_request [148] (by decide) (by decide)).1

/-! ## Claim theorems: database transfer, concrete runs -/

/-- C3: the loop appends record data before validating the CRC.  The stream
below carries the same terminal frame twice, first with a corrupt CRC tail
(`00 00`), then correctly framed; the run succeeds and returns the record
data twice, so bytes from the CRC-invalid frame ended up in the result.  A
single correctly framed copy yields the record once. -/
theorem c3_crc_invalid_frame_contributes :
    crc_valid ([0x01, 0x05] ++ [0x00, 0x80, 0x02, 0xAA, 0xBB] ++ [0x03])
      [0x00, 0x00] = false ∧
    readDatabaseData
      (([0x01, 0x05] ++ [0x00, 0x80, 0x02, 0xAA, 0xBB] ++ [0x03] ++ [0x00, 0x00]) ++
        wireFrame [0x00, 0x80, 0x02, 0xAA, 0xBB]) =
      Except.ok [[0xAA, 0xBB], [0xAA, 0xBB]] ∧
    readDatabaseData (wireFrame [0x00, 0x80, 0x02, 0xAA, 0xBB]) =
      Except.ok [[0xAA, 0xBB]] := by
  refine ⟨by decide, by decide, by decide⟩

/-- C4 counterexample: in a two-frame stream (frames 0 and 1, terminal bit on
frame 1) swapping the pair (0, 1) does not raise `ProtocolError("out of
order")`: the terminal frame arrives first, the transfer ends immediately
and returns garbage records instead of failing. -/
theorem c4_counterexample :
    readDatabaseData (encodeStream 1 (mkFrames 0 [[0xAA], [0xBB]])) =
      Except.ok [[0xAA], [0xBB]] ∧
    readDatabaseData (encodeStream 1 (swapList (mkFrames 0 [[0xAA], [0xBB]]) 0 1)) =
      Except.ok [[0xBB]] := by
  refine ⟨by decide, by decide⟩

/-- C5 counterexample: a single-frame transfer with record size 2 and three
record bytes terminates without any error: the loop returns a full slice and
a short final slice instead of raising `ProtocolError`. -/
theorem c5_counterexample :
    readDatabaseData (wireFrame [0x00, 0x80, 0x02, 0xAA, 0xBB, 0xCC]) =
      Except.ok [[0xAA, 0xBB], [0xCC]] ∧
    [0xAA, 0xBB, 0xCC].length % 2 ≠ 0 := by
  refine ⟨by decide, by decide⟩

/-! ## Claim theorems: date round-trip -/

/-- C7: `byte_to_date` inverts `date_to_byte` exactly on every valid datetime
from 2000-01-01 00:00:00 to 2063-12-31 23:59:59. -/
theorem c7_date_roundtrip (d : PyDateTime) (hv : validDateTime d)
    (hlo : 2000 ≤ d.year) (hhi : d.year ≤ 2063) :
    ∃ bs, date_to_byte (some d) = some bs ∧
      byte_to_date (some bs) = Except.ok (some d) := by
  obtain ⟨y, mo, dd, h, mi, s⟩ := d
  simp only [validDateTime] at hv
  obtain ⟨hy1, hy2, hmo1, hmo2, hdd1, hdd2, hh, hmi, hs⟩ := hv
  simp only at hlo hhi
  have hdd31 : dd ≤ 31 := le_trans hdd2 (daysInMonth_le y mo)
  obtain ⟨n, hn⟩ : ∃ n : Nat,
      n = s + mi * 64 + h * 4096 + dd * 131072 + mo * 4194304 +
        (y - 2000) * 67108864 := ⟨_, rfl⟩
  have hn32 : n < 4294967296 := by omega
  have hcast : ((n : Nat) : Int) =
      (s : Int) + (mi : Int) * 2 ^ 6 + (h : Int) * 2 ^ 12 + (dd : Int) * 2 ^ 17 +
        (mo : Int) * 2 ^ 22 + ((y : Int) - 2000) * 2 ^ 26 := by
    omega
  refine ⟨leBytesOf n 4, ?_, ?_⟩
  · simp only [date_to_byte]
    rw [if_pos]
    · congr 1
      rw [← hcast, Int.toNat_natCast]
    · constructor
      · rw [← hcast]
        exact Int.natCast_nonneg n
      · rw [← hcast]
        exact_mod_cast hn32
  · have hle : leNat (leBytesOf n 4) = n := by
      rw [leNat_leBytesOf]
      exact Nat.mod_eq_of_lt (by norm_num [hn32])
    simp only [byte_to_date, hle]
    have hsec : (n &&& 0b00000000000000000000000000111111) >>> 0 = s := by
      rw [show (0b00000000000000000000000000111111 : Nat) = (2 ^ 6 - 1) * 2 ^ 0 by
        norm_num, maskShift]
      omega
    have hminute : (n &&& 0b00000000000000000000111111000000) >>> 6 = mi := by
      rw [show (0b00000000000000000000111111000000 : Nat) = (2 ^ 6 - 1) * 2 ^ 6 by
        norm_num, maskShift]
      omega
    have hhour : (n &&& 0b00000000000000011111000000000000) >>> 12 = h := by
      rw [show (0b00000000000000011111000000000000 : Nat) = (2 ^ 5 - 1) * 2 ^ 12 by
        norm_num, maskShift]
      omega
    have hday : (n &&& 0b00000000001111100000000000000000) >>> 17 = dd := by
      rw [show (0b00000000001111100000000000000000 : Nat) = (2 ^ 5 - 1) * 2 ^ 17 by
        norm_num, maskShift]
      omega
    have hmonth : (n &&& 0b00000011110000000000000000000000) >>> 22 = mo := by
      rw [show (0b00000011110000000000000000000000 : Nat) = (2 ^ 4 - 1) * 2 ^ 22 by
        norm_num, maskShift]
      omega
    have hyear : ((n &&& 0b11111100000000000000000000000000) >>> 26) + 2000 = y := by
      rw [show (0b11111100000000000000000000000000 : Nat) = (2 ^ 6 - 1) * 2 ^ 26 by
        norm_num, maskShift]
      omega
    rw [hsec, hminute, hhour, hday, hmonth, hyear]
    simp only [mkDateTime]
    rw [if_pos]
    · rfl
    · exact ⟨hy1, hy2, hmo1, hmo2, hdd1, hdd2, hh, hmi, hs⟩

theorem splitRecordsAux_nil (fuel rs : Nat) : splitRecordsAux fuel [] rs = [] := by
  cases fuel <;> simp [splitRecordsAux]

theorem splitRecordsAux_congr :
    ∀ (fuel fuel' : Nat) (dat : Bytes) (rs : Nat), dat.length ≤ fuel →
      dat.length ≤ fuel' → splitRecordsAux fuel dat rs = splitRecordsAux fuel' dat rs := by
  intro fuel
  induction fuel with
  | zero =>
      intro fuel' dat rs hf hf'
      have : dat = [] := by
        cases dat
        · rfl
        · simp at hf
      subst this
      rw [splitRecordsAux_nil, splitRecordsAux_nil]
  | succ f ih =>
      intro fuel' dat rs hf hf'
      cases dat with
      | nil => rw [splitRecordsAux_nil, splitRecordsAux_nil]
      | cons a l =>
          cases fuel' with
          | zero => simp at hf'
          | succ f' =>
              simp only [splitRecordsAux]
              by_cases hrs : rs = 0
              · simp [hrs]
              · rw [if_neg (by simp [hrs]), if_neg (by simp [hrs])]
                have hlen : ((a :: l).drop rs).length ≤ f := by
                  simp only [List.length_drop, List.length_cons] at *
                  omega
                have hlen' : ((a :: l).drop rs).length ≤ f' := by
                  simp only [List.length_drop, List.length_cons] at *
                  omega
                rw [ih f' ((a :: l).drop rs) rs hlen hlen']

/-- The one-step unfolding of the record-splitting comprehension. -/
theorem splitRecords_eq (dat : Bytes) (rs : Nat) :
    splitRecords dat rs =
      if rs = 0 ∨ dat = [] then []
      else dat.take rs :: splitRecords (dat.drop rs) rs := by
  unfold splitRecords
  cases dat with
  | nil => simp [splitRecordsAux_nil]
  | cons a l =>
      by_cases hrs : rs = 0
      · simp [splitRecordsAux, hrs]
      · rw [if_neg (by simp [hrs])]
        simp only [List.length_cons, splitRecordsAux]
        rw [if_neg (by simp [hrs])]
        congr 1
        apply splitRecordsAux_congr
        · simp only [List.length_drop, List.length_cons]
          omega
        · exact le_rfl

theorem splitRecords_flatten (rs : Nat) (h : 0 < rs) :
    ∀ N (dat : Bytes), dat.length ≤ N → (splitRecords dat rs).flatten = dat := by
  intro N
  induction N with
  | zero =>
      intro dat hd
      have : dat = [] := by
        cases dat
        · rfl
        · simp at hd
      subst this
      rw [splitRecords_eq]
      simp
  | succ N ih =>
      intro dat hd
      rw [splitRecords_eq]
      by_cases hdat : dat = []
      · simp [hdat]
      · rw [if_neg (by simp [hdat]; omega)]
        simp only [List.flatten_cons]
        rw [ih (dat.drop rs) (by simp only [List.length_drop]; omega)]
        exact List.take_append_drop rs dat

theorem splitRecords_getLast (rs : Nat) (h : 0 < rs) :
    ∀ N (dat : Bytes), dat.length ≤ N → dat.length % rs ≠ 0 →
      ∃ r, (splitRecords dat rs).getLast? = some r ∧
        r.length = dat.length % rs ∧ r.length < rs := by
  intro N
  induction N with
  | zero =>
      intro dat hd hm
      exfalso
      have : dat = [] := by
        cases dat
        · rfl
        · simp at hd
      subst this
      simp at hm
  | succ N ih =>
      intro dat hd hm
      have hdat : dat ≠ [] := by
        intro he
        subst he
        simp at hm
      rw [splitRecords_eq, if_neg (by simp [hdat]; omega)]
      by_cases hlen : dat.length ≤ rs
      · have hlt : dat.length < rs := by
          rcases Nat.lt_or_ge dat.length rs with hc | hc
          · exact hc
          · exfalso
            have : dat.length = rs := by omega
            rw [this, Nat.mod_self] at hm
            exact hm rfl
        have hdrop : dat.drop rs = [] := List.drop_eq_nil_of_le hlen
        rw [hdrop, show splitRecords [] rs = [] from by rw [splitRecords_eq]; simp]
        refine ⟨dat.take rs, rfl, ?_, ?_⟩
        · rw [List.take_of_length_le hlen, Nat.mod_eq_of_lt hlt]
        · rw [List.take_of_length_le hlen]
          exact hlt
      · push_neg at hlen
        have hmodeq : (dat.drop rs).length % rs = dat.length % rs := by
          simp only [List.length_drop]
          conv_rhs => rw [show dat.length = (dat.length - rs) + rs by omega]
          rw [Nat.add_mod_right]
        obtain ⟨r, hr1, hr2, hr3⟩ :=
          ih (dat.drop rs) (by simp only [List.length_drop]; omega)
            (by rw [hmodeq]; exact hm)
        have htail : splitRecords (dat.drop rs) rs ≠ [] := by
          rw [splitRecords_eq, if_neg]
          · simp
          · have : dat.drop rs ≠ [] := by
              intro he
              have := congrArg List.length he
              simp only [List.length_drop, List.length_nil] at this
              omega
            simp [this]
            omega
        refine ⟨r, ?_, by rw [hr2, hmodeq], hr3⟩
        obtain ⟨b, t, hbt⟩ : ∃ b t, splitRecords (dat.drop rs) rs = b :: t := by
          cases hsp : splitRecords (dat.drop rs) rs with
          | nil => exact absurd hsp htail
          | cons b t => exact ⟨b, t, rfl⟩
        rw [hbt] at hr1 ⊢
        rw [List.getLast?_cons_cons]
        exact hr1

/-- C5 (amended): after a transfer the accumulated bytes are split into
consecutive `record_size`-wide slices, dropping nothing; when the length is
not a multiple of `record_size` no error is raised and the final slice is the
shorter remainder. -/
theorem c5_no_short_remainder_error (dat : Bytes) (recordSize : Nat)
    (h : 0 < recordSize) :
    (splitRecords dat recordSize).flatten = dat ∧
    (dat.length % recordSize ≠ 0 →
      ∃ r, (splitRecords dat recordSize).getLast? = some r ∧
        r.length = dat.length % recordSize ∧ r.length < recordSize) :=
  ⟨splitRecords_flatten recordSize h dat.length dat le_rfl,
   fun hm => splitRecords_getLast recordSize h dat.length dat le_rfl hm⟩

/-- C5 witness: the amended statement applied to three accumulated bytes and
record size two. -/
theorem c5_no_short_remainder_error_witness :
    (splitRecords [0xAA, 0xBB, 0xCC] 2).flatten = [0xAA, 0xBB, 0xCC] :=
  (c5_no_short_remainder_error [0xAA, 0xBB, 0xCC] 2 (by decide)).1

/-- C7 witness: the round-trip at the leap day 2024-02-29 23:59:59. -/
theorem c7_date_roundtrip_witness :
    ∃ bs, date_to_byte (some ⟨2024, 2, 29, 23, 59, 59⟩) = some bs ∧
      byte_to_date (some bs) = Except.ok (some ⟨2024, 2, 29, 23, 59, 59⟩) :=
  c7_date_roundtrip ⟨2024, 2, 29, 23, 59, 59⟩ (by decide) (by decide) (by decide)

/-! ## Claim theorems: database transfer, general frame sequences -/

theorem recvN_crc16 (m l : Bytes) : recvN 2 (crc16 m ++ l) = some (crc16 m, l) := by
  have h := recvN_exact (crc16 m) l
  rwa [crc16_length] at h

theorem crc_valid_self (m : Bytes) : crc_valid m (crc16 m) = true := by
  simp [crc_valid]

/-- Processing one correctly framed frame: the loop reads the five pieces,
runs the first-frame or order logic on the payload, passes the CRC check,
and either stops (terminal bit) or recurses on the rest of the stream. -/
theorem readDbLoop_wireFrame (fuel : Nat) (p rest : Bytes) (st : DbState) :
    readDbLoop (fuel + 1) (wireFrame p ++ rest) st =
      match (if st.isFirst then
          (if beNat ((p.drop 2).take 1) = 0 then Except.error IErr.emptyResponse
           else Except.ok (st.data ++ p.drop 3, beNat ((p.drop 2).take 1)))
        else
          (if leNat (p.take 2) &&& 0b0111111111111111 ≠ st.prev + 1 then
            Except.error IErr.outOfOrder
           else Except.ok (st.data ++ p.drop 2, st.recordSize)) :
          Except IErr (Bytes × Nat)) with
      | .error e => .error e
      | .ok (d1, r1) =>
          if leNat (p.take 2) &&& 0b1000000000000000 ≠ 0 then Except.ok (d1, r1)
          else readDbLoop fuel rest
            ⟨d1, r1, false, 0, leNat (p.take 2) &&& 0b0111111111111111⟩ := by
  have h1 : wireFrame p ++ rest =
      0x01 :: p.length ::
        (p ++ ([0x03] ++ (crc16 (0x01 :: p.length :: (p ++ [0x03])) ++ rest))) := by
    simp [wireFrame, add_crc]
  rw [h1]
  simp only [readDbLoop, recvN_cons, beNat_single, recvN_exact, recvN_crc16,
    List.cons_append, List.append_assoc, List.singleton_append, List.nil_append,
    ne_eq, not_true_eq_false, not_false_eq_true, reduceIte]
  simp only [recvN_crc16, crc_valid_self, eq_self_iff_true, not_true,
    reduceIte]

theorem and_32767 (v : Nat) : v &&& 0b0111111111111111 = v % 32768 := by
  rw [show (0b0111111111111111 : Nat) = 2 ^ 15 - 1 by norm_num,
    Nat.and_pow_two_sub_one_eq_mod]

theorem and_32768_eq_zero (v : Nat) (h : v < 32768) :
    v &&& 0b1000000000000000 = 0 := by
  rw [show (0b1000000000000000 : Nat) = 2 ^ 15 by norm_num, Nat.and_two_pow,
    Nat.testBit_lt_two_pow (by norm_num [h])]
  simp

theorem and_32768_ne_zero (v : Nat) (h1 : 32768 ≤ v) (h2 : v < 65536) :
    v &&& 0b1000000000000000 ≠ 0 := by
  rw [show (0b1000000000000000 : Nat) = 2 ^ 15 by norm_num, Nat.and_two_pow]
  have hbit : v.testBit 15 = true := by
    rw [Nat.testBit_to_div_mod]
    simp only [decide_eq_true_eq]
    omega
  rw [hbit]
  norm_num

theorem frameHeader_lt (f : DbFrame) (hnum : f.num < 32768) :
    frameHeader f < 65536 := by
  unfold frameHeader
  split <;> omega

theorem frameHeader_and_32767 (f : DbFrame) (hnum : f.num < 32768) :
    frameHeader f &&& 0b0111111111111111 = f.num := by
  rw [and_32767]
  unfold frameHeader
  split <;> omega

/-- Processing a correctly framed first frame with a nonzero record size:
the record size and record data are taken from the payload; the loop stops
on the terminal bit, otherwise continues with the updated state. -/
theorem readDbLoop_first (fuel : Nat) (rs : Nat) (f : DbFrame) (rest : Bytes)
    (st : DbState) (hfirst : st.isFirst = true) (hrs : rs ≠ 0)
    (hnum : f.num < 32768) :
    readDbLoop (fuel + 1) (encodeFirstFrame rs f ++ rest) st =
      if f.last then Except.ok (st.data ++ f.body, rs)
      else readDbLoop fuel rest ⟨st.data ++ f.body, rs, false, 0, f.num⟩ := by
  simp only [encodeFirstFrame]
  rw [readDbLoop_wireFrame]
  have htake2 : (le2 (frameHeader f) ++ [rs] ++ f.body).take 2 =
      le2 (frameHeader f) := by simp [le2]
  have hdrop2 : (le2 (frameHeader f) ++ [rs] ++ f.body).drop 2 = rs :: f.body := by
    simp [le2]
  have hdrop3 : (le2 (frameHeader f) ++ [rs] ++ f.body).drop 3 = f.body := by
    simp [le2]
  rw [htake2, hdrop2, hdrop3, hfirst, leNat_le2 _ (frameHeader_lt f hnum)]
  simp only [List.take_succ_cons, List.take_zero, beNat_single, if_pos rfl,
    if_neg hrs, reduceIte]
  cases hl : f.last with
  | false =>
      have hz : frameHeader f &&& 0b1000000000000000 = 0 := by
        apply and_32768_eq_zero
        simp [frameHeader, hl]
        omega
      rw [hz, frameHeader_and_32767 f hnum]
      simp
  | true =>
      have hz : frameHeader f &&& 0b1000000000000000 ≠ 0 := by
        apply and_32768_ne_zero <;> (simp [frameHeader, hl] <;> omega)
      rw [frameHeader_and_32767 f hnum]
      simp [hz]

/-- Processing a correctly framed non-first frame: the frame-order check runs
first; in order, the loop stops on the terminal bit or continues. -/
theorem readDbLoop_mid (fuel : Nat) (f : DbFrame) (rest : Bytes) (st : DbState)
    (hfirst : st.isFirst = false) (hnum : f.num < 32768) :
    readDbLoop (fuel + 1) (encodeMidFrame f ++ rest) st =
      if f.num ≠ st.prev + 1 then Except.error IErr.outOfOrder
      else if f.last then Except.ok (st.data ++ f.body, st.recordSize)
      else readDbLoop fuel rest
        ⟨st.data ++ f.body, st.recordSize, false, 0, f.num⟩ := by
  simp only [encodeMidFrame]
  rw [readDbLoop_wireFrame]
  have htake2 : (le2 (frameHeader f) ++ f.body).take 2 = le2 (frameHeader f) := by
    simp [le2]
  have hdrop2 : (le2 (frameHeader f) ++ f.body).drop 2 = f.body := by
    simp [le2]
  rw [htake2, hdrop2, hfirst, leNat_le2 _ (frameHeader_lt f hnum),
    frameHeader_and_32767 f hnum]
  simp only [Bool.false_eq_true, reduceIte]
  by_cases hord : f.num = st.prev + 1
  · simp only [hord, ne_eq, not_true_eq_false, reduceIte]
    cases hl : f.last with
    | false =>
        have hz : frameHeader f &&& 0b1000000000000000 = 0 := by
          apply and_32768_eq_zero
          simp [frameHeader, hl]
          omega
        rw [hz]
        simp [hord]
    | true =>
        have hz : frameHeader f &&& 0b1000000000000000 ≠ 0 := by
          apply and_32768_ne_zero <;> (simp [frameHeader, hl] <;> omega)
        simp [hz, hord]
  · simp [hord]

theorem mkFrames_length : ∀ (ds : List Bytes) (k : Nat),
    (mkFrames k ds).length = ds.length := by
  intro ds
  induction ds with
  | nil => intro k; rfl
  | cons d tl ih =>
      intro k
      cases tl with
      | nil => rfl
      | cons d2 tl2 =>
          simp only [mkFrames, List.length_cons]
          rw [ih (k + 1)]
          simp

theorem mkFrames_getD_num : ∀ (ds : List Bytes) (k m : Nat), m < ds.length →
    ((mkFrames k ds).getD m ⟨0, false, []⟩).num = k + m := by
  intro ds
  induction ds with
  | nil => intro k m hm; simp at hm
  | cons d tl ih =>
      intro k m hm
      cases tl with
      | nil =>
          have hm0 : m = 0 := by simp at hm; omega
          subst hm0
          rfl
      | cons d2 tl2 =>
          cases m with
          | zero => rfl
          | succ m2 =>
              simp only [mkFrames, List.getD_cons_succ]
              rw [ih (k + 1) m2 (by simp at hm ⊢; omega)]
              omega

theorem mkFrames_getD_last_false : ∀ (ds : List Bytes) (k m : Nat),
    m + 1 < ds.length →
    ((mkFrames k ds).getD m ⟨0, false, []⟩).last = false := by
  intro ds
  induction ds with
  | nil => intro k m hm; simp at hm
  | cons d tl ih =>
      intro k m hm
      cases tl with
      | nil => simp at hm
      | cons d2 tl2 =>
          cases m with
          | zero => rfl
          | succ m2 =>
              simp only [mkFrames, List.getD_cons_succ]
              exact ih (k + 1) m2 (by simp at hm ⊢; omega)

theorem swapList_length (l : List DbFrame) (i j : Nat) :
    (swapList l i j).length = l.length := by
  unfold swapList
  cases h1 : l[i]? <;> cases h2 : l[j]? <;> simp

theorem swapList_getD_ne (l : List DbFrame) (i j m : Nat) (d : DbFrame)
    (h1 : m ≠ i) (h2 : m ≠ j) : (swapList l i j).getD m d = l.getD m d := by
  unfold swapList
  cases hi : l[i]? <;> cases hj : l[j]? <;> try rfl
  simp only [List.getD_eq_getElem?_getD]
  rw [List.getElem?_set_ne (Ne.symm h2), List.getElem?_set_ne (Ne.symm h1)]

theorem swapList_getD_at_fst (l : List DbFrame) (i j : Nat) (d : DbFrame)
    (hi : i < l.length) (hj : j < l.length) (hij : i ≠ j) :
    (swapList l i j).getD i d = l.getD j d := by
  unfold swapList
  rw [List.getElem?_eq_getElem hi, List.getElem?_eq_getElem hj]
  simp only [List.getD_eq_getElem?_getD]
  rw [List.getElem?_set_ne (Ne.symm hij)]
  rw [List.getElem?_set_self]
  · simp [List.getElem?_eq_getElem hj]
  · exact hi

theorem swapList_cons (a : DbFrame) (l : List DbFrame) (i j : Nat) :
    swapList (a :: l) (i + 1) (j + 1) = a :: swapList l i j := by
  unfold swapList
  simp only [List.getElem?_cons_succ]
  cases l[i]? <;> cases l[j]? <;> simp [List.set_cons_succ]

theorem flatten_encodeMid_length (fs : List DbFrame) :
    fs.length ≤ ((fs.map encodeMidFrame).flatten).length := by
  induction fs with
  | nil => simp
  | cons f tl ih =>
      simp only [List.map_cons, List.flatten_cons, List.length_append,
        List.length_cons]
      have h1 : 1 ≤ (encodeMidFrame f).length := by
        simp [encodeMidFrame, wireFrame, add_crc, crc16_length]
      omega

theorem encodeStream_length_ge (rs : Nat) (fs : List DbFrame) :
    fs.length ≤ (encodeStream rs fs).length + 1 := by
  cases fs with
  | nil => simp
  | cons f tl =>
      simp only [encodeStream, List.length_append, List.length_cons]
      have h1 : 1 ≤ (encodeFirstFrame rs f).length := by
        simp [encodeFirstFrame, wireFrame, add_crc, crc16_length]
      have h2 := flatten_encodeMid_length tl
      omega

/-- Running the loop over consecutive, in-order, CRC-valid frames numbered
from `k`, terminal bit on the last: the record datas are appended in order
and the loop returns them with the record size unchanged. -/
theorem readDbLoop_run_tail :
    ∀ (ds : List Bytes), ds ≠ [] →
      ∀ (k fuel : Nat) (dat0 : Bytes) (rs retry : Nat) (rest : Bytes),
      1 ≤ k → k + ds.length ≤ 32768 →
      readDbLoop (fuel + ds.length)
          (((mkFrames k ds).map encodeMidFrame).flatten ++ rest)
          ⟨dat0, rs, false, retry, k - 1⟩ =
        Except.ok (dat0 ++ ds.flatten, rs) := by
  intro ds
  induction ds with
  | nil => intro h; exact absurd rfl h
  | cons d tl ih =>
      intro _ k fuel dat0 rs retry rest hk hbound
      cases tl with
      | nil =>
          simp only [List.length_cons, List.length_nil] at hbound
          simp only [mkFrames, List.map_cons, List.map_nil, List.flatten_cons,
            List.flatten_nil, List.append_nil, List.length_cons,
            List.length_nil]
          rw [show fuel + (0 + 1) = fuel + 1 by omega]
          rw [readDbLoop_mid _ _ _ _ rfl (by simp; omega)]
          rw [if_neg (by simp; omega)]
          simp
      | cons d2 tl2 =>
          simp only [List.length_cons] at hbound
          simp only [mkFrames, List.map_cons, List.flatten_cons,
            List.length_cons, List.append_assoc]
          rw [show fuel + (tl2.length + 1 + 1) = (fuel + (tl2.length + 1)) + 1
            by omega]
          rw [readDbLoop_mid _ _ _ _ rfl (by simp; omega)]
          rw [if_neg (by simp; omega)]
          rw [if_neg (by simp)]
          have happ := ih (by simp) (k + 1) fuel (dat0 ++ d) rs 0 rest
            (by omega) (by simp; omega)
          simp only [List.length_cons, Nat.add_sub_cancel] at happ
          dsimp only
          rw [happ]
          simp

/-- Running the whole good synthesized stream (frames 0 … N-1, terminal bit
on the last) from the initial state yields the concatenated record data. -/
theorem readDbLoop_run_good (ds : List Bytes) (rs : Nat) (hne : ds ≠ [])
    (hrs : rs ≠ 0) (hN : ds.length ≤ 32768) :
    ∀ fuel, ds.length ≤ fuel →
      readDbLoop fuel (encodeStream rs (mkFrames 0 ds)) ⟨[], 0, true, 0, 0⟩ =
        Except.ok (ds.flatten, rs) := by
  intro fuel hfuel
  cases ds with
  | nil => exact absurd rfl hne
  | cons d tl =>
      cases tl with
      | nil =>
          obtain ⟨f0, rfl⟩ : ∃ f0, fuel = f0 + 1 :=
            ⟨fuel - 1, by simp at hfuel; omega⟩
          simp only [mkFrames, encodeStream, List.map_nil, List.flatten_nil]
          rw [readDbLoop_first _ _ _ _ _ rfl hrs (by simp)]
          simp
      | cons d2 tl2 =>
          obtain ⟨f0, rfl⟩ : ∃ f0, fuel = f0 + 1 :=
            ⟨fuel - 1, by simp at hfuel; omega⟩
          simp only [mkFrames, encodeStream]
          rw [readDbLoop_first _ _ _ _ _ rfl hrs (by norm_num)]
          rw [if_neg (by simp)]
          have hlen2 : (d2 :: tl2).length ≤ f0 := by
            simp only [List.length_cons] at hfuel ⊢
            omega
          rw [show f0 = (f0 - (d2 :: tl2).length) + (d2 :: tl2).length by omega]
          rw [show ((mkFrames 1 (d2 :: tl2)).map encodeMidFrame).flatten =
            ((mkFrames 1 (d2 :: tl2)).map encodeMidFrame).flatten ++ [] by simp]
          rw [readDbLoop_run_tail (d2 :: tl2) (by simp) 1 _ _ rs 0 []
            (by omega) (by simp at hN ⊢; omega)]
          simp

/-- Reaching an out-of-place frame: after a run of in-order non-terminal
frames numbered `k, k+1, …`, a frame whose number is not the next expected
value makes the loop fail with the out-of-order `ProtocolError`. -/
theorem readDbLoop_run_bad :
    ∀ (i : Nat) (fs : List DbFrame) (k fuel : Nat) (rest dat0 : Bytes)
      (rs retry : Nat),
      i < fs.length →
      (∀ m, m < i → (fs.getD m ⟨0, false, []⟩).num = k + m ∧
        (fs.getD m ⟨0, false, []⟩).last = false) →
      (fs.getD i ⟨0, false, []⟩).num ≠ k + i →
      (∀ m, m ≤ i → (fs.getD m ⟨0, false, []⟩).num < 32768) →
      1 ≤ k → i + 1 ≤ fuel →
      readDbLoop fuel ((fs.map encodeMidFrame).flatten ++ rest)
          ⟨dat0, rs, false, retry, k - 1⟩ =
        Except.error IErr.outOfOrder := by
  intro i
  induction i with
  | zero =>
      intro fs k fuel rest dat0 rs retry hi hpre hbad hnum hk hfuel
      cases fs with
      | nil => simp at hi
      | cons f0 fs2 =>
          obtain ⟨f1, rfl⟩ : ∃ f1, fuel = f1 + 1 := ⟨fuel - 1, by omega⟩
          simp only [List.map_cons, List.flatten_cons, List.append_assoc]
          have hn0 : f0.num < 32768 := by simpa using hnum 0 (by omega)
          rw [readDbLoop_mid _ _ _ _ rfl hn0]
          have hb : f0.num ≠ k := by simpa using hbad
          dsimp only
          rw [if_pos (by omega)]
  | succ i2 ih =>
      intro fs k fuel rest dat0 rs retry hi hpre hbad hnum hk hfuel
      cases fs with
      | nil => simp at hi
      | cons f0 fs2 =>
          obtain ⟨f1, rfl⟩ : ∃ f1, fuel = f1 + 1 := ⟨fuel - 1, by omega⟩
          simp only [List.map_cons, List.flatten_cons, List.append_assoc]
          have hn0 : f0.num < 32768 := by simpa using hnum 0 (by omega)
          rw [readDbLoop_mid _ _ _ _ rfl hn0]
          obtain ⟨hf0num, hf0last⟩ := hpre 0 (by omega)
          simp only [List.getD_cons_zero] at hf0num hf0last
          dsimp only
          rw [if_neg (by omega), if_neg (by simp [hf0last])]
          rw [hf0num, show k + 0 = (k + 1) - 1 by omega]
          apply ih fs2 (k + 1) f1 rest (dat0 ++ f0.body) rs 0
          · simp at hi; omega
          · intro m hm
            have h2 := hpre (m + 1) (by omega)
            simp only [List.getD_cons_succ] at h2
            exact ⟨h2.1.trans (by omega), h2.2⟩
          · have hb2 := hbad
            simp only [List.getD_cons_succ] at hb2 ⊢
            intro hcon
            exact hb2 (hcon.trans (by omega))
          · intro m hm
            have h3 := hnum (m + 1) (by omega)
            simpa using h3
          · omega
          · omega

theorem set_getD_self (l : List DbFrame) (p : Nat) (a d : DbFrame)
    (hp : p < l.length) : (l.set p a).getD p d = a := by
  simp only [List.getD_eq_getElem?_getD]
  rw [List.getElem?_set_self]
  · rfl
  · exact hp

theorem set_getD_ne (l : List DbFrame) (p m : Nat) (a d : DbFrame)
    (h : m ≠ p) : (l.set p a).getD m d = l.getD m d := by
  simp only [List.getD_eq_getElem?_getD]
  rw [List.getElem?_set_ne (Ne.symm h)]

/-- Swapping position 0 with a later position `j2 + 1`: the later frame moves
to the head and the old head takes its place. -/
theorem swapList_zero_cons (f0 : DbFrame) (tl : List DbFrame) (j2 : Nat)
    (hj : j2 < tl.length) :
    swapList (f0 :: tl) 0 (j2 + 1) =
      tl.getD j2 ⟨0, false, []⟩ :: tl.set j2 f0 := by
  unfold swapList
  simp only [List.getElem?_cons_zero, List.getElem?_cons_succ]
  rw [List.getElem?_eq_getElem hj]
  simp only [List.set_cons_zero, List.set_cons_succ]
  congr 1
  simp only [List.getD_eq_getElem?_getD]
  rw [List.getElem?_eq_getElem hj]
  rfl

/-- C4 (amended): a synthesized stream of frames numbered 0 … N-1 with the
terminal bit on the last produces the concatenated record data (and the
split records); reordering any pair of frames at positions i < j other than
the pair (0, N-1) raises `ProtocolError("out of order")`.  (The excluded
swap moves the terminal frame into the first position, which ends the
transfer without an error — see the counterexample theorem.) -/
theorem c4_frame_sequence (ds : List Bytes) (rs : Nat) (hne : ds ≠ [])
    (hrs : rs ≠ 0) (_hrs255 : rs ≤ 255) (_hlen : ∀ d ∈ ds, d.length ≤ 252)
    (hN : ds.length ≤ 32768) :
    readDbLoop ((encodeStream rs (mkFrames 0 ds)).length + 1)
        (encodeStream rs (mkFrames 0 ds)) ⟨[], 0, true, 0, 0⟩ =
      Except.ok (ds.flatten, rs) ∧
    readDatabaseData (encodeStream rs (mkFrames 0 ds)) =
      Except.ok (splitRecords ds.flatten rs) ∧
    (∀ i j, i < j → j < ds.length → ¬(i = 0 ∧ j = ds.length - 1) →
      readDatabaseData (encodeStream rs (swapList (mkFrames 0 ds) i j)) =
        Except.error IErr.outOfOrder) := by
  have hfuel : ds.length ≤ (encodeStream rs (mkFrames 0 ds)).length + 1 := by
    have h := encodeStream_length_ge rs (mkFrames 0 ds)
    rwa [mkFrames_length] at h
  have hpart1 := readDbLoop_run_good ds rs hne hrs hN _ hfuel
  refine ⟨hpart1, ?_, ?_⟩
  · unfold readDatabaseData
    rw [hpart1]
  · intro i j hij hj hguard
    cases ds with
    | nil => exact absurd rfl hne
    | cons d0 dtl =>
        cases dtl with
        | nil =>
            exfalso
            simp only [List.length_cons, List.length_nil] at hj
            omega
        | cons d2 dtl2 =>
            simp only [List.length_cons] at hj hN hguard
            by_cases hi0 : i = 0
            · -- the head frame is swapped with a non-terminal frame j:
              -- the frame after the new head is out of order
              subst hi0
              obtain ⟨j2, rfl⟩ : ∃ j2, j = j2 + 1 := ⟨j - 1, by omega⟩
              have hjne : j2 + 1 ≠ dtl2.length + 1 := fun hc =>
                hguard ⟨rfl, by omega⟩
              have hjle : j2 + 1 ≤ dtl2.length := by omega
              simp only [mkFrames]
              rw [swapList_zero_cons _ _ j2 (by rw [mkFrames_length]; simp; omega)]
              set fj := (mkFrames 1 (d2 :: dtl2)).getD j2 ⟨0, false, []⟩ with hfj
              have hfjnum : fj.num = 1 + j2 := by
                rw [hfj]
                exact mkFrames_getD_num _ 1 j2 (by simp; omega)
              have hfjlast : fj.last = false := by
                rw [hfj]
                exact mkFrames_getD_last_false _ 1 j2 (by simp; omega)
              simp only [encodeStream]
              unfold readDatabaseData
              rw [readDbLoop_first _ _ _ _ _ rfl hrs (by rw [hfjnum]; omega)]
              rw [if_neg (by simp [hfjlast])]
              set tl2p := (mkFrames 1 (d2 :: dtl2)).set j2 ⟨0, false, d0⟩
                with htl
              have hlenEq : tl2p.length = dtl2.length + 1 := by
                rw [htl, List.length_set, mkFrames_length]
                simp
              have hflat := flatten_encodeMid_length tl2p
              have hb := readDbLoop_run_bad 0 tl2p (fj.num + 1)
                ((encodeFirstFrame rs fj ++
                  (tl2p.map encodeMidFrame).flatten).length)
                [] ([] ++ fj.body) rs 0
                (by omega)
                (fun m hm => absurd hm (Nat.not_lt_zero m))
                (by
                  rw [htl]
                  by_cases hj1 : j2 = 0
                  · subst hj1
                    rw [set_getD_self _ _ _ _ (by rw [mkFrames_length]; simp)]
                    rw [hfjnum]
                    simp
                  · rw [set_getD_ne _ _ _ _ _ (Ne.symm hj1)]
                    rw [mkFrames_getD_num _ 1 0 (by simp)]
                    rw [hfjnum]
                    omega)
                (by
                  intro m hm
                  have hm0 : m = 0 := by omega
                  subst hm0
                  rw [htl]
                  by_cases hj1 : j2 = 0
                  · subst hj1
                    rw [set_getD_self _ _ _ _ (by rw [mkFrames_length]; simp)]
                    simp
                  · rw [set_getD_ne _ _ _ _ _ (Ne.symm hj1)]
                    rw [mkFrames_getD_num _ 1 0 (by simp)]
                    omega)
                (by omega)
                (by simp only [List.length_append]; omega)
              simp only [List.append_nil, Nat.add_sub_cancel] at hb
              rw [hb]
            · -- both swapped positions are at 1 or later: the frame arriving
              -- at position i is out of order
              have hi : 1 ≤ i := by omega
              obtain ⟨i2, rfl⟩ : ∃ i2, i = i2 + 1 := ⟨i - 1, by omega⟩
              obtain ⟨j2, rfl⟩ : ∃ j2, j = j2 + 1 := ⟨j - 1, by omega⟩
              simp only [mkFrames]
              rw [swapList_cons]
              simp only [encodeStream]
              unfold readDatabaseData
              rw [readDbLoop_first _ _ _ _ _ rfl hrs (by simp)]
              rw [if_neg (by simp)]
              set tl2p := swapList (mkFrames 1 (d2 :: dtl2)) i2 j2 with htl
              have hlenEq : tl2p.length = dtl2.length + 1 := by
                rw [htl, swapList_length, mkFrames_length]
                simp
              have hmklen : (mkFrames 1 (d2 :: dtl2)).length = dtl2.length + 1 := by
                rw [mkFrames_length]
                simp
              have hflat := flatten_encodeMid_length tl2p
              have hb := readDbLoop_run_bad i2 tl2p 1
                ((encodeFirstFrame rs ⟨0, false, d0⟩ ++
                  (tl2p.map encodeMidFrame).flatten).length)
                [] ([] ++ d0) rs 0
                (by omega)
                (by
                  intro m hm
                  rw [htl, swapList_getD_ne _ _ _ _ _ (by omega) (by omega)]
                  constructor
                  · rw [mkFrames_getD_num _ 1 m (by simp; omega)]
                  · exact mkFrames_getD_last_false _ 1 m (by simp; omega))
                (by
                  rw [htl, swapList_getD_at_fst _ _ _ _ (by rw [hmklen]; omega)
                    (by rw [hmklen]; omega) (by omega)]
                  rw [mkFrames_getD_num _ 1 j2 (by simp; omega)]
                  omega)
                (by
                  intro m hm
                  by_cases hmi : m = i2
                  · subst hmi
                    rw [htl, swapList_getD_at_fst _ _ _ _ (by rw [hmklen]; omega)
                      (by rw [hmklen]; omega) (by omega)]
                    rw [mkFrames_getD_num _ 1 j2 (by simp; omega)]
                    omega
                  · rw [htl, swapList_getD_ne _ _ _ _ _ hmi (by omega)]
                    rw [mkFrames_getD_num _ 1 m (by simp; omega)]
                    omega)
                (by omega)
                (by simp only [List.length_append]; omega)
              simp only [List.append_nil, Nat.sub_self] at hb
              rw [hb]

/-- C4 witness: the amended statement at the three-record stream
`[[AA], [BB], [CC]]`, record size 1, with the pair (0, 1) reordered. -/
theorem c4_frame_sequence_witness :
    readDatabaseData
        (encodeStream 1 (swapList (mkFrames 0 [[0xAA], [0xBB], [0xCC]]) 0 1)) =
      Except.error IErr.outOfOrder :=
  (c4_frame_sequence [[0xAA], [0xBB], [0xCC]] 1 (by decide) (by decide)
    (by decide) (by decide) (by decide)).2.2 0 1 (by decide) (by decide)
    (by decide)

end IFlag
